import Mathlib

/-!
Verification of the railway-announcer core against its specification.

The definitions below are a shallow embedding of the Python sources:
  * `src/tts_engine.py`   — `SileroTTS._normalize_text`, `SileroTTS.speak`,
    `SileroTTS.stop` (the player state machine);
  * `src/llm_generator.py` — `AnnouncementGenerator.generate_announcement`
    (cancellable streaming generation with fallback paths);
  * `src/main.py`          — the `speak_thread` batch loop of
    `RailwayAnnouncerApp._on_speak_click`.

External collaborators (the `num2words` library, the regex engine) are
modelled faithfully on the fragment the code exercises: the two concrete
patterns `(\d{1,2}):(\d{2})` and `\d+` are implemented as explicit
left-to-right scanners with Python `re.sub` semantics (leftmost match,
greedy quantifiers with backtracking, replacement text not rescanned),
and `num2words` as the English cardinal speller with the merge rules of
the library ("twenty-one", "four hundred and five",
"two thousand, four hundred and twenty-six").  `\d` is modelled as the
ASCII decimal digits.  The English speller of the library raises
OverflowError for values at or above its MAXVAL of 10^36 (its scale
table ends at "decillion", 10^33); this is modelled by `num2wordsE`
returning `none`, the digit-substitution pass then fails as a whole
(re.sub propagates the exception from the replacement callback), and
`normalize_text` models the `except` branch of `_normalize_text`, which
returns the text bound at that point: the step-1 result, with digit
runs, hyphens and colons intact.  Time substitution itself can never
overflow (hour and minute values are at most 99).
-/

namespace Announcer

/-! ## English cardinal speller (model of `num2words`) -/

/-- Words for 0..19, as produced by `num2words`.  Out-of-range arguments
(never reached by the callers below) give the empty string. -/
def smallWord : Nat → String
  | 0 => "zero"
  | 1 => "one"
  | 2 => "two"
  | 3 => "three"
  | 4 => "four"
  | 5 => "five"
  | 6 => "six"
  | 7 => "seven"
  | 8 => "eight"
  | 9 => "nine"
  | 10 => "ten"
  | 11 => "eleven"
  | 12 => "twelve"
  | 13 => "thirteen"
  | 14 => "fourteen"
  | 15 => "fifteen"
  | 16 => "sixteen"
  | 17 => "seventeen"
  | 18 => "eighteen"
  | 19 => "nineteen"
  | _ => ""

/-- Words for the tens 20,30,...,90 (argument is the tens digit). -/
def tensWord : Nat → String
  | 2 => "twenty"
  | 3 => "thirty"
  | 4 => "forty"
  | 5 => "fifty"
  | 6 => "sixty"
  | 7 => "seventy"
  | 8 => "eighty"
  | 9 => "ninety"
  | _ => ""

/-- Cardinal for n < 100: `num2words` joins tens and units with a hyphen. -/
def below100 (n : Nat) : String :=
  if n < 20 then smallWord n
  else if n % 10 == 0 then tensWord (n / 10)
  else tensWord (n / 10) ++ "-" ++ smallWord (n % 10)

/-- Cardinal for n < 1000: `num2words` inserts " and " after "hundred". -/
def below1000 (n : Nat) : String :=
  if n < 100 then below100 n
  else if n % 100 == 0 then smallWord (n / 100) ++ " hundred"
  else smallWord (n / 100) ++ " hundred and " ++ below100 (n % 100)

/-- Scale word for the k-th power of 1000.  The scale table of the
library ends at "decillion" (10^33): larger indices are unreachable,
because `num2wordsE` rejects every value at or above 10^36. -/
def scaleWord : Nat → String
  | 0 => ""
  | 1 => "thousand"
  | 2 => "million"
  | 3 => "billion"
  | 4 => "trillion"
  | 5 => "quadrillion"
  | 6 => "quintillion"
  | 7 => "sextillion"
  | 8 => "septillion"
  | 9 => "octillion"
  | 10 => "nonillion"
  | 11 => "decillion"
  | _ + 12 => ""

/-- Base-1000 digits of n, little-endian, with an explicit fuel bound
(`fuel ≥ n` always suffices) so the definition is structural. -/
def groups1000 : Nat → Nat → List Nat
  | _, 0 => []
  | 0, _ => []
  | fuel + 1, n + 1 => (n + 1) % 1000 :: groups1000 fuel ((n + 1) / 1000)

/-- Base-1000 digits of n, little-endian. -/
def groupsOf (n : Nat) : List Nat := groups1000 n n

/-- The nonzero base-1000 groups of n, most significant first, each
paired with its scale index. -/
def bigParts (n : Nat) : List (Nat × Nat) :=
  ((groupsOf n).enum.filter (fun p => p.2 != 0)).reverse

/-- One spelled group: the sub-thousand cardinal plus its scale word. -/
def partText (p : Nat × Nat) : String :=
  if p.1 == 0 then below1000 p.2 else below1000 p.2 ++ " " ++ scaleWord p.1

/-- Separator before the remaining parts: `num2words` writes " and "
only before a final units group below 100, otherwise ", ". -/
def partSep : List (Nat × Nat) → String
  | [(i, g)] => if i == 0 && decide (g < 100) then " and " else ", "
  | _ => ", "

/-- Join the spelled groups with the `num2words` merge separators. -/
def joinParts : List (Nat × Nat) → String
  | [] => ""
  | [p] => partText p
  | p :: q :: rest => partText p ++ partSep (q :: rest) ++ joinParts (q :: rest)

/-- English cardinal of a natural number: the value `num2words(n)`
returns when it does not raise, i.e. for n below the MAXVAL bound. -/
def num2words (n : Nat) : String :=
  if n == 0 then "zero" else joinParts (bigParts n)

/-- The overflow bound of the English speller: MAXVAL = 10^36. -/
def N2W_MAXVAL : Nat := 10 ^ 36

/-- `num2words(n)` as called by the code: raises OverflowError
(modelled as `none`) for values at or above MAXVAL. -/
def num2wordsE (n : Nat) : Option String :=
  if n < N2W_MAXVAL then some (num2words n) else none

/-! ## `SileroTTS._normalize_text` (src/tts_engine.py)

Step 1: `re.sub(r"(\d{1,2}):(\d{2})", replace_time, text)` where
`replace_time` spells hour and minute.  Step 2:
`re.sub(r"\d+", replace_number, text)`.  Step 3:
`text.replace("-", " ")`. -/

/-- Python `int` on a (non-empty) string of ASCII digits. -/
def digitsToNat (l : List Char) : Nat :=
  l.foldl (fun acc c => acc * 10 + (c.toNat - 48)) 0

/-- The `replace_time` substitution target:
`f"{num2words(h)} {num2words(m)}"` for the two captured digit groups. -/
def timeRepl (hs ms : List Char) : List Char :=
  (num2words (digitsToNat hs) ++ " " ++ num2words (digitsToNat ms)).data

/-- The five-character time match `\d{2}:\d{2}` (greedy two-digit hour). -/
def guard5 (a b c d e : Char) : Bool :=
  a.isDigit && b.isDigit && (c == ':') && d.isDigit && e.isDigit

/-- The four-character time match `\d:\d{2}` (backtracked one-digit hour). -/
def guard4 (a b c d : Char) : Bool :=
  a.isDigit && (b == ':') && c.isDigit && d.isDigit

/-- Characters that replacement text is built from: neither a decimal
digit nor a colon, so a replacement can never feed a new time match. -/
def okChar (c : Char) : Bool := !c.isDigit && !(c == ':')

/-- Left-to-right scan of `re.sub(r"(\d{1,2}):(\d{2})", replace_time, ·)`:
at each position the greedy `\d{1,2}` tries a two-digit hour first, then
backtracks to one digit; a match consumes its characters (replacement
text is not rescanned); otherwise the scan advances one character.
Hour and minute values are at most 99, so this pass never overflows the
speller and never raises. -/
def substTime : List Char → List Char
  | a :: b :: c :: d :: e :: rest =>
    if guard5 a b c d e then
      timeRepl [a, b] [d, e] ++ substTime rest
    else if guard4 a b c d then
      timeRepl [a] [c, d] ++ substTime (e :: rest)
    else
      a :: substTime (b :: c :: d :: e :: rest)
  | a :: b :: c :: d :: [] =>
    if guard4 a b c d then
      timeRepl [a] [c, d]
    else
      a :: substTime [b, c, d]
  | a :: rest => a :: substTime rest
  | [] => []

/-- Spell a pending (reversed) run of digits via `replace_number`, i.e.
`num2words(int(run))`; an empty run contributes nothing; a run whose
value reaches MAXVAL raises (`none`). -/
def flushRun (pend : List Char) : Option (List Char) :=
  match pend with
  | [] => some []
  | _ => (num2wordsE (digitsToNat pend.reverse)).map String.data

/-- Left-to-right scan of `re.sub(r"\d+", replace_number, ·)`: `pend`
accumulates the current maximal digit run (reversed); an OverflowError
raised by any replacement makes the whole pass raise. -/
def sdGo : List Char → List Char → Option (List Char)
  | pend, [] => flushRun pend
  | pend, c :: rest =>
    if c.isDigit then sdGo (c :: pend) rest
    else
      match flushRun pend, sdGo [] rest with
      | some f, some r => some (f ++ c :: r)
      | _, _ => none

/-- `re.sub(r"\d+", replace_number, ·)`: each maximal run of decimal
digits becomes its spelled-out cardinal, or the pass raises. -/
def substDigits (l : List Char) : Option (List Char) := sdGo [] l

/-- `text.replace("-", " ")` on a single character. -/
def hyphenToSpace (c : Char) : Char := if c == '-' then ' ' else c

/-- Step 3 of `_normalize_text`: every hyphen becomes a space. -/
def mapHyphens (l : List Char) : List Char := l.map hyphenToSpace

/-- `SileroTTS._normalize_text`: times, then remaining digit runs, then
hyphens.  When the digit pass raises (a run value at or above MAXVAL),
the `except` branch returns `text` as bound at that point: the step-1
result, with digit runs, hyphens and colons intact.  Step 1 never
raises (hours and minutes are at most 99) and step 3 never raises. -/
def normalize_text (s : String) : String :=
  match substDigits (substTime s.data) with
  | some t2 => ⟨mapHyphens t2⟩
  | none => ⟨substTime s.data⟩

/-- A digit run whose value reaches MAXVAL = 10^36: 37 nines. -/
def overflowRun : String := "9999999999999999999999999999999999999"

/-- A hyphen followed by an overflowing digit run. -/
def overflowHyphen : String := "-9999999999999999999999999999999999999"

/-- Whether a time-pattern match starts at the head of the list: the
condition the time scanner evaluates at each position (two-digit hour
first, then the one-digit backtrack). -/
def timeCond : List Char → Bool
  | a :: b :: c :: d :: e :: _ => guard5 a b c d e || guard4 a b c d
  | [a, b, c, d] => guard4 a b c d
  | _ => false

/-! ## `AnnouncementGenerator.generate_announcement` (src/llm_generator.py) -/

/-- One schedule record, with the fields `generate_announcement` reads
from the `train_data` dictionary. -/
structure TrainData where
  train_number : String
  operator : String
  destination : String
  origin : String
  scheduled_time : String
  platform : String
  delay_minutes : Nat
deriving DecidableEq

/-- The `info` block of the user prompt, including the delay branch. -/
def promptInfo (t : TrainData) : String :=
  "Train Number: " ++ t.train_number ++ "\n" ++
  "Operator: " ++ t.operator ++ "\n" ++
  "Destination: " ++ t.destination ++ "\n" ++
  "Origin: " ++ t.origin ++ "\n" ++
  "Time: " ++ t.scheduled_time ++ "\n" ++
  "Platform: " ++ t.platform ++ "\n" ++
  (if t.delay_minutes > 0 then
    "STATUS: DELAYED by " ++ toString t.delay_minutes ++ " minutes"
  else "STATUS: ON TIME")

/-- The fixed degraded-mode sentence of the `except` path. -/
def fallbackSentence (t : TrainData) : String :=
  "Attention. Train " ++ t.train_number ++ " to " ++ t.destination ++
  " is delayed."

/-- Result of one `generate_announcement` call, instrumented with the
backend work it consumed: `pulls` counts chunks taken from the stream,
`modelCalls` counts `create_chat_completion` invocations. -/
structure GenOut where
  text : String
  pulls : Nat
  modelCalls : Nat
deriving DecidableEq

/-- The `for chunk in stream` loop.  A chunk is `some content` when its
delta carries a `content` key.  `stop_check_callback` is read once per
pulled chunk — after the pull, before the content is appended — and is
modelled as the flag value at each read index.  The second component of
the result is the number of chunks pulled. -/
def genLoop (cancel : Nat → Bool) : List (Option String) → Nat → String → String × Nat
  | [], i, acc => (acc.trim, i)
  | ch :: _rest, i, _acc =>
    if cancel i then ("[Interrupted]", i + 1)
    else
      match ch with
      | some content => genLoop cancel _rest (i + 1) (_acc ++ content)
      | none => genLoop cancel _rest (i + 1) _acc

/-- `generate_announcement`.  `loadOk` models `self.llm or
self.load_model()`; `raises` models the `try` block raising (the
`except` path catches any exception from the call or the stream; it is
placed at the call here, before any chunk is pulled). -/
def generate_announcement (loadOk : Bool) (raises : Bool)
    (chunks : List (Option String)) (cancel : Nat → Bool) (t : TrainData) : GenOut :=
  if !loadOk then ⟨"System unavailable.", 0, 0⟩
  else if raises then ⟨fallbackSentence t, 0, 1⟩
  else
    let r := genLoop cancel chunks 0 ""
    ⟨r.1, r.2, 1⟩

/-- Concatenation of the `content` payloads of a chunk list, in order. -/
def concatContents : List (Option String) → String
  | [] => ""
  | some c :: rest => c ++ concatContents rest
  | none :: rest => concatContents rest

/-- The text `generate_announcement` returns when every chunk is
consumed: the concatenated contents, stripped (`full_text.strip()`). -/
def fullStreamText (chunks : List (Option String)) : String :=
  (concatContents chunks).trim

/-! ## Player state (`SileroTTS.speak` / `SileroTTS.stop`) -/

/-- Player-relevant state: the `_playback_active` flag plus counters of
calls made to the output device (`sd.stop()` / `sd.play()`). -/
structure PlayerState where
  playbackActive : Bool
  deviceStopCalls : Nat
  devicePlayCalls : Nat
deriving DecidableEq

/-- `SileroTTS.stop`: touches the device only when playback is active. -/
def ttsStop (s : PlayerState) : PlayerState :=
  if s.playbackActive then
    { playbackActive := false, deviceStopCalls := s.deviceStopCalls + 1,
      devicePlayCalls := s.devicePlayCalls }
  else s

/-- The playback tail of `SileroTTS.speak` on the success path: set
`_playback_active`, start the device, and if blocking wait and clear
the flag. -/
def ttsPlay (s : PlayerState) (blocking : Bool) : PlayerState :=
  let s1 : PlayerState :=
    { playbackActive := true, deviceStopCalls := s.deviceStopCalls,
      devicePlayCalls := s.devicePlayCalls + 1 }
  if blocking then { s1 with playbackActive := false } else s1

/-! ## The batch loop of `_on_speak_click` (src/main.py)

The `speak_thread` loop over `trains_to_announce` reads `should_stop`
three times per iteration (before generate, after generate, after
speak) and once more when the loop exits.  Reads are numbered by a
global counter; `stop` gives the flag value at each read.  `fails i`
models `speak` hitting its internal `except` on record `i` (synthesis
or playback failure), which skips the playback of that record only.
`generate_announcement` and `speak` never raise into this loop. -/

/-- Observable outcome of one batch run. -/
structure PipeOut where
  processed : List Nat
  played : List Nat
  nextCounter : Nat
deriving DecidableEq

/-- The batch loop: `i` is the index of the next record, the second
argument the number of records left, `c` the next read index. -/
def pipeLoop (stop : Nat → Bool) (fails : Nat → Bool) : Nat → Nat → Nat → PipeOut
  | _, 0, c => ⟨[], [], c⟩
  | i, k + 1, c =>
    if stop c then ⟨[], [], c + 1⟩
    else if stop (c + 1) then ⟨[i], [], c + 2⟩
    else if stop (c + 2) then ⟨[i], if fails i then [] else [i], c + 3⟩
    else
      let r := pipeLoop stop fails (i + 1) k (c + 3)
      ⟨i :: r.processed, (if fails i then [] else [i]) ++ r.played, r.nextCounter⟩

/-- A whole batch run over K records. -/
def pipeRun (stop : Nat → Bool) (fails : Nat → Bool) (K : Nat) : PipeOut :=
  pipeLoop stop fails 0 K 0

/-- Status string set on the cancelled exit. -/
def statusStopped : String := "🛑 Stopped by user"

/-- Status string set on the normal exit. -/
def statusCompleted : String := "✅ All announcements completed"

/-- The terminal status reported by `speak_thread`: one final read of
`should_stop` decides between the two fixed strings. -/
def pipeStatus (stop : Nat → Bool) (fails : Nat → Bool) (K : Nat) : String :=
  if stop (pipeRun stop fails K).nextCounter then statusStopped
  else statusCompleted

/-- `_on_speak_click` announces `trains[:3]`: a batch over a list of
`n` loaded records runs on `min n 3` records. -/
def speakClickRun (stop : Nat → Bool) (fails : Nat → Bool) (numTrains : Nat) : PipeOut :=
  pipeRun stop fails (min numTrains 3)

/-- A concrete schedule record used by the closed theorems below. -/
def tTest : TrainData := ⟨"2426", "Amtrak", "London", "Boston", "21:05", "3", 0⟩

/-! ## Lemmas about the streaming generation loop -/

/-- The loop result is either the interruption marker or the stripped
concatenation of the accumulator with every remaining content payload:
no intermediate prefix is ever returned. -/
theorem genLoop_text_cases (cancel : Nat → Bool) :
    ∀ (chunks : List (Option String)) (i : Nat) (acc : String),
      (genLoop cancel chunks i acc).1 = "[Interrupted]" ∨
      (genLoop cancel chunks i acc).1 = (acc ++ concatContents chunks).trim := by
  intro chunks
  induction chunks with
  | nil =>
    intro i acc
    right
    simp [genLoop, concatContents]
  | cons ch rest ih =>
    intro i acc
    by_cases h : cancel i
    · left
      simp [genLoop, h]
    · cases ch with
      | some content =>
        rcases ih (i + 1) (acc ++ content) with h1 | h1
        · left
          simpa [genLoop, h] using h1
        · right
          have : (genLoop cancel (some content :: rest) i acc).1
              = (genLoop cancel rest (i + 1) (acc ++ content)).1 := by
            simp [genLoop, h]
          rw [this, h1, concatContents, String.append_assoc]
      | none =>
        rcases ih (i + 1) acc with h1 | h1
        · left
          simpa [genLoop, h] using h1
        · right
          have : (genLoop cancel (none :: rest) i acc).1
              = (genLoop cancel rest (i + 1) acc).1 := by
            simp [genLoop, h]
          rw [this, h1, concatContents]

/-- If any check invoked during the loop reads the flag as set, the
loop returns the interruption marker. -/
theorem genLoop_interrupt (cancel : Nat → Bool) :
    ∀ (chunks : List (Option String)) (i : Nat) (acc : String),
      (∃ j, j < chunks.length ∧ cancel (i + j) = true) →
      (genLoop cancel chunks i acc).1 = "[Interrupted]" := by
  intro chunks
  induction chunks with
  | nil =>
    intro i acc h
    rcases h with ⟨j, hj, _⟩
    simp at hj
  | cons ch rest ih =>
    intro i acc h
    by_cases hc : cancel i
    · simp [genLoop, hc]
    · rcases h with ⟨j, hj, hcj⟩
      cases j with
      | zero => simp at hcj; exact absurd hcj hc
      | succ j' =>
        have hr : ∃ j, j < rest.length ∧ cancel (i + 1 + j) = true := by
          refine ⟨j', by simpa using hj, ?_⟩
          have : i + 1 + j' = i + (j' + 1) := by omega
          rw [this]
          exact hcj
        cases ch with
        | some content =>
          have : (genLoop cancel (some content :: rest) i acc).1
              = (genLoop cancel rest (i + 1) (acc ++ content)).1 := by
            simp [genLoop, hc]
          rw [this]
          exact ih (i + 1) (acc ++ content) hr
        | none =>
          have : (genLoop cancel (none :: rest) i acc).1
              = (genLoop cancel rest (i + 1) acc).1 := by
            simp [genLoop, hc]
          rw [this]
          exact ih (i + 1) acc hr

/-! ## Claim theorems: generator and player -/

/-- C1: if the cancellation check returns true at any chunk, generation
halts with the interruption marker and the accumulated partial text is
discarded; the caller only ever sees the marker or the full stripped
text, never a proper partial result. -/
theorem generate_cancel_yields_no_partial_text
    (chunks : List (Option String)) (cancel : Nat → Bool) (t : TrainData) :
    ((∃ i, i < chunks.length ∧ cancel i = true) →
      (generate_announcement true false chunks cancel t).text = "[Interrupted]")
    ∧ ((generate_announcement true false chunks cancel t).text = "[Interrupted]"
       ∨ (generate_announcement true false chunks cancel t).text = fullStreamText chunks) := by
  constructor
  · intro h
    rcases h with ⟨i, hi, hc⟩
    have : ∃ j, j < chunks.length ∧ cancel (0 + j) = true := ⟨i, hi, by simpa using hc⟩
    simpa [generate_announcement] using genLoop_interrupt cancel chunks 0 "" this
  · rcases genLoop_text_cases cancel chunks 0 "" with h | h
    · left
      simpa [generate_announcement] using h
    · right
      simpa [generate_announcement, fullStreamText] using h

/-- Closed instance of C1: a flag set at the second chunk yields the
interruption marker. -/
theorem generate_cancel_yields_no_partial_text_witness :
    (generate_announcement true false [some "Hello", some " world"]
      (fun i => i == 1) tTest).text = "[Interrupted]" :=
  (generate_cancel_yields_no_partial_text [some "Hello", some " world"]
    (fun i => i == 1) tTest).1 ⟨1, by decide, by decide⟩

/-- C2 counterexample: with the backend not loadable, the returned
sentence is the fixed string "System unavailable.", which contains
neither the record identifier nor the destination. -/
theorem unavailable_fallback_lacks_identifier :
    (generate_announcement false false [] (fun _ => false) tTest).text
      = "System unavailable."
    ∧ ¬ (tTest.train_number.data <:+:
        (generate_announcement false false [] (fun _ => false) tTest).text.data)
    ∧ ¬ (tTest.destination.data <:+:
        (generate_announcement false false [] (fun _ => false) tTest).text.data) := by
  decide

/-- C2 amended: when the backend cannot be loaded the call returns the
fixed non-empty sentence "System unavailable." — the spoken result is
non-empty and the caller receives an ordinary string (the batch is not
failed) — but the sentence names neither identifier nor destination. -/
theorem unavailable_returns_fixed_sentence (raises : Bool)
    (chunks : List (Option String)) (cancel : Nat → Bool) (t : TrainData) :
    (generate_announcement false raises chunks cancel t).text = "System unavailable."
    ∧ (generate_announcement false raises chunks cancel t).text.isEmpty = false :=
  ⟨rfl, rfl⟩

/-- C4 counterexample: with the flag already set before the call, the
backend call is still made and one chunk is still pulled from the
stream before the first check runs. -/
theorem precancelled_generate_still_pulls :
    (generate_announcement true false [some "Hello"] (fun _ => true) tTest).text
      = "[Interrupted]"
    ∧ ¬ ((generate_announcement true false [some "Hello"] (fun _ => true) tTest).pulls = 0)
    ∧ ¬ ((generate_announcement true false [some "Hello"] (fun _ => true) tTest).modelCalls = 0) := by
  decide

/-- C4 amended: if the flag is already set before the first chunk is
requested, generate returns the interruption marker with no text
accumulated, but only after issuing the backend call and pulling
exactly one chunk — the check runs after each pull, not before. -/
theorem precancelled_generate_interrupts
    (chunks : List (Option String)) (cancel : Nat → Bool) (t : TrainData)
    (h : cancel 0 = true) (hne : chunks ≠ []) :
    generate_announcement true false chunks cancel t = ⟨"[Interrupted]", 1, 1⟩ := by
  cases chunks with
  | nil => exact absurd rfl hne
  | cons ch rest => simp [generate_announcement, genLoop, h]

/-- Closed instance of the amended C4. -/
theorem precancelled_generate_interrupts_witness :
    generate_announcement true false [some "Hi"] (fun _ => true) tTest
      = ⟨"[Interrupted]", 1, 1⟩ :=
  precancelled_generate_interrupts [some "Hi"] (fun _ => true) tTest rfl (by decide)

/-- C10: whenever the streaming call raises, the returned sentence is
exactly "Attention. Train NUMBER to DESTINATION is delayed.", and it
does not depend on the delay — an on-time record (delay 0) is announced
as delayed too. -/
theorem generation_error_fallback_asserts_delay
    (chunks : List (Option String)) (cancel : Nat → Bool) (t : TrainData) :
    (generate_announcement true true chunks cancel t).text
      = "Attention. Train " ++ t.train_number ++ " to " ++ t.destination ++ " is delayed."
    ∧ ∀ d : Nat,
      (generate_announcement true true chunks cancel { t with delay_minutes := d }).text
        = (generate_announcement true true chunks cancel t).text :=
  ⟨rfl, fun _ => rfl⟩

/-- C9: `stop()` in the idle state leaves the player state unchanged —
in particular no device call is made — a second `stop()` is always a
no-op, and `stop()` from idle does not change the effect of a
subsequent `play`. -/
theorem stop_idle_noop (s : PlayerState) :
    (s.playbackActive = false → ttsStop s = s)
    ∧ ttsStop (ttsStop s) = ttsStop s
    ∧ ∀ b, s.playbackActive = false → ttsPlay (ttsStop s) b = ttsPlay s b := by
  refine ⟨fun h => ?_, ?_, fun b h => ?_⟩
  · simp [ttsStop, h]
  · by_cases h : s.playbackActive <;> simp [ttsStop, h]
  · simp [ttsStop, h]

/-- Closed instance of C9 at the idle state. -/
theorem stop_idle_noop_witness :
    ttsStop ⟨false, 0, 0⟩ = (⟨false, 0, 0⟩ : PlayerState)
    ∧ ttsPlay (ttsStop ⟨false, 0, 0⟩) true = ttsPlay ⟨false, 0, 0⟩ true :=
  ⟨(stop_idle_noop _).1 rfl, (stop_idle_noop _).2.2 true rfl⟩

/-! ## Lemmas about the batch loop -/

/-- With the stop flag never set, the loop processes every record in
input order and plays exactly the records whose speak call does not
fail, consuming three flag reads per record. -/
theorem pipeLoop_noStop (stop fails : Nat → Bool) (h : ∀ n, stop n = false) :
    ∀ (K i c : Nat),
      pipeLoop stop fails i K c
        = ⟨List.range' i K, (List.range' i K).filter (fun j => !fails j), c + 3 * K⟩ := by
  intro K
  induction K with
  | zero =>
    intro i c
    simp [pipeLoop]
  | succ k ih =>
    intro i c
    rw [List.range'_succ]
    simp only [pipeLoop, h, if_false, Bool.false_eq_true]
    rw [ih (i + 1) (c + 3)]
    by_cases hf : fails i
    · simp [hf, List.filter_cons]
      omega
    · simp [hf, List.filter_cons]
      omega

/-- The loop never processes more records than the batch holds. -/
theorem pipeLoop_processed_len (stop fails : Nat → Bool) :
    ∀ (K i c : Nat), (pipeLoop stop fails i K c).processed.length ≤ K := by
  intro K
  induction K with
  | zero =>
    intro i c
    simp [pipeLoop]
  | succ k ih =>
    intro i c
    simp only [pipeLoop]
    split
    · simp
    · split
      · simp
      · split
        · simp
        · simpa using Nat.succ_le_succ (ih (i + 1) (c + 3))

/-! ## Claim theorems: batch loop -/

/-- C6: when the stop flag is never observed set, every record of the
batch is processed in order — a speak failure on record i removes only
record i from the played list — and conversely an unprocessed record
implies some stop check read the flag as set, so cancellation is the
only path that aborts the remaining batch. -/
theorem synth_failure_skips_only_that_record (stop fails : Nat → Bool) (K : Nat) :
    ((∀ n, stop n = false) →
      (pipeRun stop fails K).processed = List.range K
      ∧ (pipeRun stop fails K).played = (List.range K).filter (fun j => !fails j))
    ∧ ((pipeRun stop fails K).processed ≠ List.range K → ∃ n, stop n = true) := by
  have hmain : (∀ n, stop n = false) →
      (pipeRun stop fails K).processed = List.range K
      ∧ (pipeRun stop fails K).played = (List.range K).filter (fun j => !fails j) := by
    intro h
    have hrun := pipeLoop_noStop stop fails h K 0 0
    rw [pipeRun, hrun]
    constructor <;> simp [List.range_eq_range']
  refine ⟨hmain, fun hne => ?_⟩
  by_contra hno
  push_neg at hno
  have h : ∀ n, stop n = false := by
    intro n
    cases hsn : stop n
    · rfl
    · exact absurd hsn (hno n)
  exact hne (hmain h).1

/-- Closed instance of C6: speak fails on record 1 of 3; records 0 and
2 still play and all three are processed. -/
theorem synth_failure_skips_only_that_record_witness :
    (pipeRun (fun _ => false) (fun j => j == 1) 3).processed = List.range 3
    ∧ (pipeRun (fun _ => false) (fun j => j == 1) 3).played = [0, 2] := by
  have h := (synth_failure_skips_only_that_record (fun _ => false) (fun j => j == 1) 3).1
    (fun _ => rfl)
  exact ⟨h.1, h.2.trans (by decide)⟩

/-- C5 counterexample: completed runs over 1 and over 2 records report
the identical string, and stopped runs halting before record 0 and
before record 1 report the identical string — the terminal report
contains neither a completed count N-of-K nor a stop index. -/
theorem terminal_report_lacks_counts :
    pipeStatus (fun _ => false) (fun _ => false) 1
      = pipeStatus (fun _ => false) (fun _ => false) 2
    ∧ (pipeRun (fun _ => false) (fun _ => false) 1).played.length = 1
    ∧ (pipeRun (fun _ => false) (fun _ => false) 2).played.length = 2
    ∧ pipeStatus (fun _ => true) (fun _ => false) 3
      = pipeStatus (fun n => decide (3 ≤ n)) (fun _ => false) 3
    ∧ (pipeRun (fun _ => true) (fun _ => false) 3).played.length = 0
    ∧ (pipeRun (fun n => decide (3 ≤ n)) (fun _ => false) 3).played.length = 1 := by
  decide

/-- C5 amended: every batch run terminates with exactly one of the two
fixed terminal status strings — stopped or completed — processing at
most K records, and completes all K with the completed status when the
flag is never observed set; the report names the terminal state only,
not how many records were announced and not a stop index. -/
theorem batch_terminal_status (stop fails : Nat → Bool) (K : Nat) :
    (pipeStatus stop fails K = statusStopped ∨ pipeStatus stop fails K = statusCompleted)
    ∧ (pipeRun stop fails K).processed.length ≤ K
    ∧ ((∀ n, stop n = false) →
        pipeStatus stop fails K = statusCompleted
        ∧ (pipeRun stop fails K).processed.length = K) := by
  refine ⟨?_, pipeLoop_processed_len stop fails K 0 0, fun h => ?_⟩
  · by_cases hs : stop (pipeRun stop fails K).nextCounter <;> simp [pipeStatus, hs]
  · have hrun := pipeLoop_noStop stop fails h K 0 0
    constructor
    · simp [pipeStatus, h]
    · rw [pipeRun, hrun]
      simp

/-- Closed instance of the amended C5: a clean 3-record run completes
with the fixed completed status. -/
theorem batch_terminal_status_witness :
    pipeStatus (fun _ => false) (fun _ => false) 3 = statusCompleted
    ∧ (pipeRun (fun _ => false) (fun _ => false) 3).processed.length = 3 :=
  (batch_terminal_status (fun _ => false) (fun _ => false) 3).2.2 (fun _ => rfl)


/-! ## Lemmas: speller characters are neither digits nor colons -/

/-- Split an `okChar` fact into its two components. -/
theorem okChar_split (c : Char) (h : okChar c = true) :
    c.isDigit = false ∧ (c == ':') = false := by
  simp only [okChar, Bool.and_eq_true, Bool.not_eq_true'] at h
  exact h

/-- Weaken a list-wide `okChar` fact to digit-freeness. -/
theorem all_okChar_noDigit (l : List Char) (h : l.all okChar = true) :
    l.all (fun c => !c.isDigit) = true := by
  rw [List.all_eq_true] at h ⊢
  intro c hc
  simpa using (okChar_split c (h c hc)).1

/-- Every 0..19 word is clean. -/
theorem smallWord_ok (n : Nat) : (smallWord n).data.all okChar = true := by
  match n with
  | 0 | 1 | 2 | 3 | 4 | 5 | 6 | 7 | 8 | 9 => decide
  | 10 | 11 | 12 | 13 | 14 | 15 | 16 | 17 | 18 | 19 => decide
  | _ + 20 => rfl

/-- Every tens word is clean. -/
theorem tensWord_ok (n : Nat) : (tensWord n).data.all okChar = true := by
  match n with
  | 0 | 1 | 2 | 3 | 4 | 5 | 6 | 7 | 8 | 9 => decide
  | _ + 10 => rfl

/-- Every sub-hundred cardinal is clean. -/
theorem below100_ok (n : Nat) : (below100 n).data.all okChar = true := by
  rw [below100]
  split
  · exact smallWord_ok n
  · split
    · exact tensWord_ok (n / 10)
    · simp [List.all_append, tensWord_ok, smallWord_ok]
      decide

/-- Every sub-thousand cardinal is clean. -/
theorem below1000_ok (n : Nat) : (below1000 n).data.all okChar = true := by
  rw [below1000]
  split
  · exact below100_ok n
  · split
    · simp [List.all_append, smallWord_ok]
      decide
    · simp [List.all_append, smallWord_ok, below100_ok]
      decide

/-- Every scale word is clean. -/
theorem scaleWord_ok (i : Nat) : (scaleWord i).data.all okChar = true := by
  match i with
  | 0 | 1 | 2 | 3 | 4 | 5 | 6 | 7 | 8 | 9 | 10 | 11 => decide
  | _ + 12 => rfl

/-- Every spelled group is clean. -/
theorem partText_ok (p : Nat × Nat) : (partText p).data.all okChar = true := by
  obtain ⟨i, g⟩ := p
  rw [partText]
  split
  · exact below1000_ok g
  · simp [List.all_append, below1000_ok, scaleWord_ok]
    decide

/-- Every separator is clean. -/
theorem partSep_ok (l : List (Nat × Nat)) : (partSep l).data.all okChar = true := by
  match l with
  | [] => rfl
  | [(i, g)] =>
    rw [partSep]
    split <;> decide
  | p :: q :: rest => rfl

/-- Every joined group list is clean. -/
theorem joinParts_ok (l : List (Nat × Nat)) :
    (joinParts l).data.all okChar = true := by
  induction l with
  | nil => rfl
  | cons p tl ih =>
    cases tl with
    | nil => simpa [joinParts] using partText_ok p
    | cons q rest =>
      show ((partText p ++ partSep (q :: rest) ++ joinParts (q :: rest)).data.all okChar) = true
      simp [List.all_append, partText_ok, partSep_ok, ih]

/-- The spelled cardinal of any natural number is clean: it contains
neither a decimal digit nor a colon. -/
theorem num2words_ok (n : Nat) : (num2words n).data.all okChar = true := by
  rw [num2words]
  split
  · decide
  · exact joinParts_ok (bigParts n)

/-- The spelled cardinal contains no digit. -/
theorem num2words_noDigit (n : Nat) : (num2words n).data.all (fun c => !c.isDigit) = true :=
  all_okChar_noDigit _ (num2words_ok n)

/-- The time replacement consists of clean characters only. -/
theorem timeRepl_ok (hs ms : List Char) : (timeRepl hs ms).all okChar = true := by
  have h1 := num2words_ok (digitsToNat hs)
  have h2 := num2words_ok (digitsToNat ms)
  simp only [timeRepl, String.data_append, List.all_append, Bool.and_eq_true]
  exact ⟨⟨h1, by decide⟩, h2⟩

/-- The time replacement is never empty (it contains a space). -/
theorem timeRepl_ne_nil (hs ms : List Char) : timeRepl hs ms ≠ [] := by
  simp only [timeRepl, String.data_append]
  intro h
  rcases List.append_eq_nil.mp h with ⟨h1, _⟩
  rcases List.append_eq_nil.mp h1 with ⟨_, h2⟩
  exact absurd h2 (by decide)

/-! ## Lemmas: the digit pass on success outputs no digit -/

/-- A successful speller call yields digit-free text. -/
theorem num2wordsE_some_noDigit (n : Nat) (s : String) (h : num2wordsE n = some s) :
    s.data.all (fun c => !c.isDigit) = true := by
  rw [num2wordsE] at h
  split at h
  · obtain rfl : num2words n = s := by simpa using h
    exact num2words_noDigit n
  · exact absurd h (by simp)

/-- A successful flush yields digit-free text. -/
theorem flushRun_some_noDigit (pend out : List Char) (h : flushRun pend = some out) :
    out.all (fun c => !c.isDigit) = true := by
  match pend with
  | [] =>
    obtain rfl : ([] : List Char) = out := by simpa [flushRun] using h
    rfl
  | c :: rest =>
    rw [show flushRun (c :: rest)
        = (num2wordsE (digitsToNat (c :: rest).reverse)).map String.data from rfl] at h
    rw [Option.map_eq_some'] at h
    obtain ⟨s, hs, rfl⟩ := h
    exact num2wordsE_some_noDigit _ _ hs

/-- A successful digit scan yields digit-free text, from any state. -/
theorem sdGo_some_noDigit :
    ∀ (l pend out : List Char), sdGo pend l = some out →
      out.all (fun c => !c.isDigit) = true := by
  intro l
  induction l with
  | nil =>
    intro pend out h
    exact flushRun_some_noDigit pend out (by simpa [sdGo] using h)
  | cons c rest ih =>
    intro pend out h
    by_cases hc : c.isDigit
    · exact ih (c :: pend) out (by simpa [sdGo, hc] using h)
    · have hcf : c.isDigit = false := by simpa using hc
      rw [sdGo] at h
      simp only [hcf, Bool.false_eq_true, if_false] at h
      cases hf : flushRun pend with
      | none => rw [hf] at h; simp at h
      | some f =>
        cases hr : sdGo [] rest with
        | none => rw [hf, hr] at h; simp at h
        | some r =>
          rw [hf, hr] at h
          obtain rfl : f ++ c :: r = out := by simpa using h
          simp [List.all_append, flushRun_some_noDigit _ _ hf, ih [] r hr, hcf]

/-- On digit-free input the digit scan succeeds and is the identity. -/
theorem sdGo_id_of_noDigit :
    ∀ l : List Char, l.all (fun c => !c.isDigit) = true → sdGo [] l = some l := by
  intro l
  induction l with
  | nil => intro _; rfl
  | cons c rest ih =>
    intro h
    rw [List.all_cons] at h
    obtain ⟨h1, h2⟩ := Bool.and_eq_true_iff.mp h
    have hc : c.isDigit = false := by simpa using h1
    rw [sdGo]
    simp only [hc, Bool.false_eq_true, if_false]
    rw [ih h2]
    rfl

/-- Hyphen replacement preserves digit-freeness. -/
theorem mapHyphens_noDigit (l : List Char) (h : l.all (fun c => !c.isDigit) = true) :
    (mapHyphens l).all (fun c => !c.isDigit) = true := by
  rw [mapHyphens, List.all_map]
  refine List.all_eq_true.mpr (fun c hc => ?_)
  have hcd := List.all_eq_true.mp h c hc
  by_cases hd : c == '-'
  · simp [Function.comp, hyphenToSpace, hd]
  · simpa [Function.comp, hyphenToSpace, hd] using hcd

/-- Hyphen replacement outputs no hyphen. -/
theorem mapHyphens_noHyphen (l : List Char) :
    (mapHyphens l).all (fun c => !(c == '-')) = true := by
  rw [mapHyphens, List.all_map]
  refine List.all_eq_true.mpr (fun c _ => ?_)
  by_cases hd : c == '-' <;> simp_all [Function.comp, hyphenToSpace]

/-- Hyphen replacement is the identity on hyphen-free text. -/
theorem mapHyphens_id_of_noHyphen :
    ∀ l : List Char, l.all (fun c => !(c == '-')) = true → mapHyphens l = l := by
  intro l
  induction l with
  | nil => intro _; rfl
  | cons c rest ih =>
    intro h
    rw [List.all_cons] at h
    have hc : (c == '-') = false := by
      simpa using (Bool.and_eq_true_iff.mp h).1
    show hyphenToSpace c :: mapHyphens rest = c :: rest
    rw [ih (Bool.and_eq_true_iff.mp h).2, hyphenToSpace, if_neg (by simp_all)]

/-- The success branch of `_normalize_text`. -/
theorem normalize_eq_of_some (s : String) (t2 : List Char)
    (h : substDigits (substTime s.data) = some t2) :
    normalize_text s = ⟨mapHyphens t2⟩ := by
  simp only [normalize_text, h]

/-- The `except` branch of `_normalize_text`: the step-1 text is
returned unchanged. -/
theorem normalize_eq_of_none (s : String)
    (h : substDigits (substTime s.data) = none) :
    normalize_text s = ⟨substTime s.data⟩ := by
  simp only [normalize_text, h]

/-! ## Lemmas: the time pass cannot create a new time match

A time match needs a digit at its start, a digit or colon at every
position of its window, and replacement text contains neither, so after
one pass no position of the output can start a match.  This yields
idempotence of the time pass, needed because the `except` branch of
`_normalize_text` feeds the step-1 text into a possible second pass. -/

/-- A match cannot start on a non-digit. -/
theorem timeCond_false_head (a : Char) (t : List Char) (ha : a.isDigit = false) :
    timeCond (a :: t) = false := by
  match t with
  | b :: c :: d :: e :: t2 => simp [timeCond, guard5, guard4, ha]
  | [b, c, d] => simp [timeCond, guard4, ha]
  | [b, c] => rfl
  | [b] => rfl
  | [] => rfl

/-- A clean character at position 1 kills both match shapes. -/
theorem timeCond_false_pos1 (a x : Char) (t : List Char) (hx : okChar x = true) :
    timeCond (a :: x :: t) = false := by
  obtain ⟨hxd, hxc⟩ := okChar_split x hx
  match t with
  | c :: d :: e :: t2 => simp [timeCond, guard5, guard4, hxd, hxc]
  | [c, d] => simp [timeCond, guard4, hxc]
  | [c] => rfl
  | [] => rfl

/-- A clean character at position 2 kills both match shapes. -/
theorem timeCond_false_pos2 (a b y : Char) (t : List Char) (hy : okChar y = true) :
    timeCond (a :: b :: y :: t) = false := by
  obtain ⟨hyd, hyc⟩ := okChar_split y hy
  match t with
  | d :: e :: t2 => simp [timeCond, guard5, guard4, hyd, hyc]
  | [d] => simp [timeCond, guard4, hyd]
  | [] => rfl

/-- A non-digit at position 3 kills both match shapes. -/
theorem timeCond_false_pos3 (a b c z : Char) (t : List Char) (hz : z.isDigit = false) :
    timeCond (a :: b :: c :: z :: t) = false := by
  match t with
  | e :: t2 => simp [timeCond, guard5, guard4, hz]
  | [] => simp [timeCond, guard4, hz]

/-- With the four-character match ruled out, a non-digit at position 4
kills the five-character match too. -/
theorem timeCond_false_pos4 (a b c d w : Char) (t : List Char)
    (hw : w.isDigit = false) (hg : guard4 a b c d = false) :
    timeCond (a :: b :: c :: d :: w :: t) = false := by
  simp [timeCond, guard5, hg, hw]

/-- The four-character match is refuted by the scanner condition at the
position, whatever follows. -/
theorem guard4_false_of_timeCond (a b c d : Char) (t : List Char)
    (h : timeCond (a :: b :: c :: d :: t) = false) : guard4 a b c d = false := by
  match t with
  | [] => simpa [timeCond] using h
  | e :: t2 =>
    have h2 : (guard5 a b c d e || guard4 a b c d) = false := by
      simpa [timeCond] using h
    simpa using (Bool.or_eq_false_iff.mp h2).2

/-- One step of the scanner, seen from outside: the input is empty, or
the head is copied, or the output starts with a non-empty clean
replacement. -/
theorem substTime_shape (m : List Char) :
    (m = [] ∧ substTime m = [])
    ∨ (∃ b tl, m = b :: tl ∧ substTime m = b :: substTime tl)
    ∨ (∃ w r, substTime m = w ++ r ∧ w ≠ [] ∧ w.all okChar = true) := by
  match m with
  | [] => exact Or.inl ⟨rfl, rfl⟩
  | a :: b :: c :: d :: e :: rest =>
    by_cases h5 : guard5 a b c d e
    · refine Or.inr (Or.inr ⟨timeRepl [a, b] [d, e], substTime rest, ?_,
        timeRepl_ne_nil _ _, timeRepl_ok _ _⟩)
      simp [substTime, h5]
    · by_cases h4 : guard4 a b c d
      · refine Or.inr (Or.inr ⟨timeRepl [a] [c, d], substTime (e :: rest), ?_,
          timeRepl_ne_nil _ _, timeRepl_ok _ _⟩)
        simp [substTime, h5, h4]
      · exact Or.inr (Or.inl ⟨a, b :: c :: d :: e :: rest, rfl, by simp [substTime, h5, h4]⟩)
  | [a, b, c, d] =>
    by_cases h4 : guard4 a b c d
    · refine Or.inr (Or.inr ⟨timeRepl [a] [c, d], [], ?_, timeRepl_ne_nil _ _, timeRepl_ok _ _⟩)
      simp [substTime, h4]
    · exact Or.inr (Or.inl ⟨a, [b, c, d], rfl, by simp [substTime, h4]⟩)
  | [a, b, c] => exact Or.inr (Or.inl ⟨a, [b, c], rfl, rfl⟩)
  | [a, b] => exact Or.inr (Or.inl ⟨a, [b], rfl, rfl⟩)
  | [a] => exact Or.inr (Or.inl ⟨a, [], rfl, rfl⟩)

/-- If no match starts at a position of the input, no match starts
there after the tail has been rewritten: replacements only contribute
clean characters, and an all-copied window is the original window. -/
theorem timeCond_cons_substTime (a : Char) (tl : List Char)
    (h : timeCond (a :: tl) = false) :
    timeCond (a :: substTime tl) = false := by
  by_cases ha : a.isDigit
  case neg => exact timeCond_false_head _ _ (by simpa using ha)
  case pos =>
  rcases substTime_shape tl with ⟨rfl, hnil⟩ | ⟨b, tl1, rfl, hs⟩ | ⟨w, r, hs, hw0, hwok⟩
  · rw [hnil]; rfl
  · rw [hs]
    rcases substTime_shape tl1 with ⟨rfl, hnil1⟩ | ⟨c, tl2, rfl, hs1⟩ | ⟨w1, r1, hs1, hw1, hwok1⟩
    · rw [hnil1]; rfl
    · rw [hs1]
      rcases substTime_shape tl2 with ⟨rfl, hnil2⟩ | ⟨d, tl3, rfl, hs2⟩ | ⟨w2, r2, hs2, hw2, hwok2⟩
      · rw [hnil2]; rfl
      · rw [hs2]
        rcases substTime_shape tl3 with ⟨rfl, hnil3⟩ | ⟨e, tl4, rfl, hs3⟩ | ⟨w3, r3, hs3, hw3, hwok3⟩
        · rw [hnil3]
          exact h
        · rw [hs3]
          simp only [timeCond] at h ⊢
          exact h
        · match w3, hw3 with
          | wh :: wt, _ =>
            rw [hs3]
            have hwh : okChar wh = true := List.all_eq_true.mp hwok3 wh (by simp)
            exact timeCond_false_pos4 a b c d wh (wt ++ r3)
              (okChar_split wh hwh).1 (guard4_false_of_timeCond a b c d tl3 h)
      · match w2, hw2 with
        | wh :: wt, _ =>
          rw [hs2]
          have hwh : okChar wh = true := List.all_eq_true.mp hwok2 wh (by simp)
          exact timeCond_false_pos3 a b c wh (wt ++ r2) (okChar_split wh hwh).1
    · match w1, hw1 with
      | wh :: wt, _ =>
        rw [hs1]
        have hwh : okChar wh = true := List.all_eq_true.mp hwok1 wh (by simp)
        exact timeCond_false_pos2 a b wh (wt ++ r1) hwh
  · match w, hw0 with
    | wh :: wt, _ =>
      rw [hs]
      have hwh : okChar wh = true := List.all_eq_true.mp hwok wh (by simp)
      exact timeCond_false_pos1 a wh (wt ++ r) hwh

/-- A suffix of an appended list is a suffix of the right part, or a
non-empty suffix of the left part followed by the whole right part. -/
theorem suffix_append_cases {t w r : List Char} (h : t <:+ w ++ r) :
    t <:+ r ∨ ∃ v, v <:+ w ∧ v ≠ [] ∧ t = v ++ r := by
  induction w with
  | nil => exact Or.inl (by simpa using h)
  | cons x w2 ih =>
    rw [List.cons_append, List.suffix_cons_iff] at h
    rcases h with rfl | h
    · exact Or.inr ⟨x :: w2, List.suffix_refl _, by simp, by simp⟩
    · rcases ih h with h1 | ⟨v, hv, hvne, rfl⟩
      · exact Or.inl h1
      · exact Or.inr ⟨v, hv.trans (List.suffix_cons x w2), hvne, rfl⟩

/-- When the scanner condition fails at the head, the scanner copies
the head, whatever the arm. -/
theorem substTime_cons_of_condFalse (a : Char) (tl : List Char)
    (h : timeCond (a :: tl) = false) :
    substTime (a :: tl) = a :: substTime tl := by
  match tl with
  | b :: c :: d :: e :: rest =>
    have h2 : (guard5 a b c d e || guard4 a b c d) = false := by
      simpa [timeCond] using h
    obtain ⟨h5, h4⟩ := Bool.or_eq_false_iff.mp h2
    simp [substTime, h5, h4]
  | [b, c, d] =>
    have h4 : guard4 a b c d = false := by simpa [timeCond] using h
    simp [substTime, h4]
  | [b, c] => rfl
  | [b] => rfl
  | [] => rfl

/-- A list no suffix of which starts a match is a fixed point of the
time pass. -/
theorem substTime_id_of_condFree :
    ∀ l : List Char, (∀ t, t <:+ l → timeCond t = false) → substTime l = l := by
  intro l
  induction l with
  | nil => intro _; rfl
  | cons a tl ih =>
    intro h
    rw [substTime_cons_of_condFalse a tl (h _ (List.suffix_refl _))]
    rw [ih (fun t ht => h t (ht.trans (List.suffix_cons a tl)))]

/-- No suffix of the output of the time pass starts a match. -/
theorem timeCond_suffix_substTime :
    ∀ (n : Nat) (l : List Char), l.length ≤ n →
      ∀ t, t <:+ substTime l → timeCond t = false := by
  intro n
  induction n with
  | zero =>
    intro l hl t ht
    match l, hl with
    | [], _ =>
      obtain rfl : t = [] := by simpa [substTime] using ht
      rfl
  | succ n ih =>
    intro l hl t ht
    match l, hl, ht with
    | [], _, ht =>
      obtain rfl : t = [] := by simpa [substTime] using ht
      rfl
    | a :: b :: c :: d :: e :: rest, hl, ht =>
      by_cases h5 : guard5 a b c d e
      · rw [show substTime (a :: b :: c :: d :: e :: rest)
            = timeRepl [a, b] [d, e] ++ substTime rest from by simp [substTime, h5]] at ht
        rcases suffix_append_cases ht with h1 | ⟨v, hv, hvne, rfl⟩
        · refine ih rest ?_ t h1
          simp at hl
          omega
        · match v, hvne with
          | vh :: vt, _ =>
            have hok : okChar vh = true :=
              List.all_eq_true.mp (timeRepl_ok _ _) vh (hv.subset (by simp))
            exact timeCond_false_head _ _ (okChar_split _ hok).1
      · by_cases h4 : guard4 a b c d
        · rw [show substTime (a :: b :: c :: d :: e :: rest)
              = timeRepl [a] [c, d] ++ substTime (e :: rest) from by simp [substTime, h5, h4]] at ht
          rcases suffix_append_cases ht with h1 | ⟨v, hv, hvne, rfl⟩
          · refine ih (e :: rest) ?_ t h1
            simp at hl ⊢
            omega
          · match v, hvne with
            | vh :: vt, _ =>
              have hok : okChar vh = true :=
                List.all_eq_true.mp (timeRepl_ok _ _) vh (hv.subset (by simp))
              exact timeCond_false_head _ _ (okChar_split _ hok).1
        · rw [show substTime (a :: b :: c :: d :: e :: rest)
              = a :: substTime (b :: c :: d :: e :: rest) from by simp [substTime, h5, h4]] at ht
          rcases List.suffix_cons_iff.mp ht with rfl | h1
          · have hcond : timeCond (a :: b :: c :: d :: e :: rest) = false := by
              simp [timeCond, h5, h4]
            exact timeCond_cons_substTime a _ hcond
          · refine ih (b :: c :: d :: e :: rest) ?_ t h1
            simp at hl ⊢
            omega
    | [a, b, c, d], hl, ht =>
      by_cases h4 : guard4 a b c d
      · rw [show substTime [a, b, c, d]
            = timeRepl [a] [c, d] ++ ([] : List Char) from by simp [substTime, h4]] at ht
        rcases suffix_append_cases ht with h1 | ⟨v, hv, hvne, rfl⟩
        · obtain rfl : t = [] := by simpa using h1
          rfl
        · match v, hvne with
          | vh :: vt, _ =>
            have hok : okChar vh = true :=
              List.all_eq_true.mp (timeRepl_ok _ _) vh (hv.subset (by simp))
            exact timeCond_false_head _ _ (okChar_split _ hok).1
      · rw [show substTime [a, b, c, d] = a :: substTime [b, c, d] from by
          simp [substTime, h4]] at ht
        rcases List.suffix_cons_iff.mp ht with rfl | h1
        · have hcond : timeCond [a, b, c, d] = false := by simpa [timeCond] using h4
          exact timeCond_cons_substTime a _ hcond
        · refine ih [b, c, d] ?_ t h1
          simp at hl ⊢
          omega
    | [a, b, c], hl, ht =>
      rw [show substTime [a, b, c] = a :: substTime [b, c] from rfl] at ht
      rcases List.suffix_cons_iff.mp ht with rfl | h1
      · exact timeCond_cons_substTime a [b, c] rfl
      · refine ih [b, c] ?_ t h1
        simp at hl ⊢
        omega
    | [a, b], hl, ht =>
      rw [show substTime [a, b] = a :: substTime [b] from rfl] at ht
      rcases List.suffix_cons_iff.mp ht with rfl | h1
      · exact timeCond_cons_substTime a [b] rfl
      · refine ih [b] ?_ t h1
        simp at hl ⊢
        omega
    | [a], hl, ht =>
      rw [show substTime [a] = a :: substTime [] from rfl] at ht
      rcases List.suffix_cons_iff.mp ht with rfl | h1
      · exact timeCond_cons_substTime a [] rfl
      · obtain rfl : t = [] := by simpa [substTime] using h1
        rfl

/-- The time pass is idempotent: its output admits no further match. -/
theorem substTime_idem (l : List Char) : substTime (substTime l) = substTime l :=
  substTime_id_of_condFree _ (timeCond_suffix_substTime l.length l le_rfl)

/-- When the head is not a digit, the time scan just copies it: every
match of the time pattern starts with a digit. -/
theorem substTime_cons_of_not_digit (a : Char) (tl : List Char) (ha : a.isDigit = false) :
    substTime (a :: tl) = a :: substTime tl :=
  substTime_cons_of_condFalse a tl (timeCond_false_head a tl ha)

/-- The time scan is the identity on digit-free text. -/
theorem substTime_id_of_noDigit :
    ∀ l : List Char, l.all (fun c => !c.isDigit) = true → substTime l = l := by
  intro l
  induction l with
  | nil => intro _; rfl
  | cons a tl ih =>
    intro h
    rw [List.all_cons] at h
    have ha : a.isDigit = false := by simpa using (Bool.and_eq_true_iff.mp h).1
    rw [substTime_cons_of_not_digit a tl ha, ih (Bool.and_eq_true_iff.mp h).2]

/-! ## Claim theorems: text normalization -/

/-- C3 counterexample: a colon not flanked by digits survives
normalization, and on an overflowing digit run (37 nines, value at
least 10^36) the except path returns the text with its digits intact. -/
theorem colon_survives_normalize :
    normalize_text ":" = ":" ∧ ':' ∈ (normalize_text ":").data
    ∧ normalize_text overflowRun = overflowRun
    ∧ '9' ∈ (normalize_text overflowRun).data := by
  decide

/-- C3 amended: when no digit run reaches the speller overflow bound of
10^36 the normalized output contains no decimal digit; when one does,
the except path returns the time-substituted text unchanged, digits
included.  A ':' outside an HH:MM pattern survives in both cases. -/
theorem normalize_no_digit_output (s : String) :
    ((substDigits (substTime s.data)).isSome = true →
      (normalize_text s).data.all (fun c => !c.isDigit) = true)
    ∧ (substDigits (substTime s.data) = none →
      normalize_text s = ⟨substTime s.data⟩) := by
  constructor
  · intro h
    obtain ⟨t2, ht⟩ := Option.isSome_iff_exists.mp h
    rw [normalize_eq_of_some s t2 ht]
    exact mapHyphens_noDigit _ (sdGo_some_noDigit _ _ _ ht)
  · exact normalize_eq_of_none s

/-- Closed instances of the amended C3: a digit-free output on a
non-overflowing input, and the unchanged step-1 text on an overflowing
run. -/
theorem normalize_no_digit_output_witness :
    (normalize_text "Train 2426 departs 21:05").data.all (fun c => !c.isDigit) = true
    ∧ normalize_text overflowRun = ⟨substTime overflowRun.data⟩ :=
  ⟨(normalize_no_digit_output _).1 (by decide),
   (normalize_no_digit_output _).2 (by decide)⟩

/-- C7 counterexample: on a hyphen followed by an overflowing digit run
the except path returns the step-1 text, so the hyphen (and the digit
run) survive normalization. -/
theorem hyphen_survives_on_overflow :
    normalize_text overflowHyphen = overflowHyphen
    ∧ '-' ∈ (normalize_text overflowHyphen).data := by
  decide

/-- C7 amended: the three rewrites apply in order — times, remaining
digit runs, hyphens — whenever every digit-run value stays below the
speller overflow bound of 10^36, and then no hyphen remains (including
those the speller introduces); on overflow the except path returns the
time-substituted text with digit runs and hyphens intact.  The example
is fully spelled out with no hyphen. -/
theorem normalize_spells_out_example :
    normalize_text "Train 2426 departs 21:05"
      = "Train two thousand, four hundred and twenty six departs twenty one five"
    ∧ normalize_text "21" = "twenty one"
    ∧ ∀ s, (substDigits (substTime s.data)).isSome = true →
        (normalize_text s).data.all (fun c => !(c == '-')) = true := by
  refine ⟨by decide, by decide, fun s h => ?_⟩
  obtain ⟨t2, ht⟩ := Option.isSome_iff_exists.mp h
  rw [normalize_eq_of_some s t2 ht]
  exact mapHyphens_noHyphen t2

/-- Closed instance of the amended C7: a non-overflowing input with a
hyphen and a digit comes out hyphen-free. -/
theorem normalize_spells_out_example_witness :
    (normalize_text "platform 9-A").data.all (fun c => !(c == '-')) = true :=
  normalize_spells_out_example.2.2 "platform 9-A" (by decide)

/-- C8: normalization is idempotent.  On the success branch the output
contains no digit and no hyphen, so every step is the identity on a
second pass; on the except branch the returned step-1 text admits no
further time match (replacement text contains no digit and no colon),
the digit pass overflows again, and the same text is returned. -/
theorem normalize_idempotent (s : String) :
    normalize_text (normalize_text s) = normalize_text s := by
  cases hsub : substDigits (substTime s.data) with
  | some t2 =>
    have h1 : normalize_text s = ⟨mapHyphens t2⟩ := normalize_eq_of_some s t2 hsub
    have hnd : (mapHyphens t2).all (fun c => !c.isDigit) = true :=
      mapHyphens_noDigit _ (sdGo_some_noDigit _ _ _ hsub)
    have hst : substTime (mapHyphens t2) = mapHyphens t2 := substTime_id_of_noDigit _ hnd
    have hsd : substDigits (substTime ((⟨mapHyphens t2⟩ : String)).data)
        = some (mapHyphens t2) := by
      show substDigits (substTime (mapHyphens t2)) = some (mapHyphens t2)
      rw [hst]
      exact sdGo_id_of_noDigit _ hnd
    rw [h1, normalize_eq_of_some _ _ hsd,
      mapHyphens_id_of_noHyphen _ (mapHyphens_noHyphen t2)]
  | none =>
    have h1 : normalize_text s = ⟨substTime s.data⟩ := normalize_eq_of_none s hsub
    have hidem : substTime (substTime s.data) = substTime s.data := substTime_idem _
    have hnone : substDigits (substTime ((⟨substTime s.data⟩ : String)).data) = none := by
      show substDigits (substTime (substTime s.data)) = none
      rw [hidem]
      exact hsub
    rw [h1, normalize_eq_of_none _ hnone]
    show (⟨substTime (substTime s.data)⟩ : String) = ⟨substTime s.data⟩
    rw [hidem]

end Announcer
